import Mathlib

/-!
Shallow embedding of the crime-risk routing pipeline
(`src/geocoding/block_sampling.py`, `src/geocoding/kde_risk_surface.py`,
`src/graph/create_graph.py`, `src/graph/main.py`, `src/graph/evaluate_routes.py`).

Strings are modelled through their character lists; Python floats are modelled
by `ℚ` (all operations the verified claims touch are exact field arithmetic);
Python `None` and fallible operations are modelled by `Option`/`Except`.
-/

namespace CrimeRoutes

/-! ## Python string primitives used by `block_sampling.py` and `create_graph.py` -/

/-- Python `str.strip()` / `str.split()` whitespace test. -/
def isPySpace (c : Char) : Bool := c.isWhitespace

/-- Python `str.strip()` on a character list. -/
def stripChars (s : List Char) : List Char :=
  ((s.dropWhile isPySpace).reverse.dropWhile isPySpace).reverse

/-- Python `str.upper()` on a character list (the inputs are ASCII). -/
def upperChars (s : List Char) : List Char := s.map Char.toUpper

/-- Auxiliary accumulator for `splitWs`: splits at every whitespace
character, keeping empty chunks. -/
def splitWsCore (s : List Char) : List (List Char) :=
  s.foldr
    (fun c acc =>
      match acc with
      | [] => if isPySpace c then [[]] else [[c]]
      | w :: rest => if isPySpace c then [] :: w :: rest else (c :: w) :: rest)
    [[]]

/-- Python `str.split()` (no argument): split on whitespace runs, dropping
empty chunks. -/
def splitWs (s : List Char) : List (List Char) :=
  (splitWsCore s).filter (fun w => !w.isEmpty)

/-- Python `str.split(sep)` for a one-character separator, keeping empty
chunks. -/
def splitOnChar (sep : Char) (s : List Char) : List (List Char) :=
  s.foldr
    (fun c acc =>
      match acc with
      | [] => if c == sep then [[], []] else [[c]]
      | w :: rest => if c == sep then [] :: w :: rest else (c :: w) :: rest)
    [[]]

/-- Does `s` start with the pattern `pat`? -/
def startsWithSeq : List Char → List Char → Bool
  | [], _ => true
  | _ :: _, [] => false
  | p :: ps, c :: cs => p == c && startsWithSeq ps cs

/-- Python `pat in s` substring test. -/
def containsSeq (pat : List Char) : List Char → Bool
  | [] => pat.isEmpty
  | c :: cs => startsWithSeq pat (c :: cs) || containsSeq pat cs

/-- The five characters of the literal keyword `BLOCK`. -/
def blockChars : List Char := ['B', 'L', 'O', 'C', 'K']

/-- Python `s.replace("BLOCK", "")`: remove every (left-to-right,
non-overlapping) occurrence of `BLOCK`. -/
def removeBLOCK : List Char → List Char
  | 'B' :: 'L' :: 'O' :: 'C' :: 'K' :: rest => removeBLOCK rest
  | c :: rest => c :: removeBLOCK rest
  | [] => []

/-! ## Python `int(str)` -/

/-- Value of a digit/underscore body, ignoring underscores. -/
def digitsVal : List Char → Nat
  | [] => 0
  | c :: cs =>
    if c == '_' then digitsVal cs
    else digitsVal cs + (c.toNat - 48) * 10 ^ (cs.filter (fun d => !(d == '_'))).length

/-- After the leading digit of an integer literal: digits, with single
underscores allowed only between digits (Python's grammar for `int(str)`). -/
def intTailOk : List Char → Bool
  | [] => true
  | '_' :: [] => false
  | '_' :: d :: rest => d.isDigit && intTailOk (d :: rest)
  | d :: rest => d.isDigit && intTailOk rest

/-- Unsigned body of a Python integer literal. -/
def pyIntBody (s : List Char) : Option Nat :=
  match s with
  | [] => none
  | c :: rest => if c.isDigit && intTailOk rest then some (digitsVal (c :: rest)) else none

/-- Python `int(str)`: strips whitespace, accepts an optional sign followed by
digits (single underscores allowed between digits); `none` models the
`ValueError` raise. -/
def pyInt (t : List Char) : Option Int :=
  match stripChars t with
  | '+' :: rest => (pyIntBody rest).map Int.ofNat
  | '-' :: rest => (pyIntBody rest).map (fun n => -(Int.ofNat n : Int))
  | s => (pyIntBody s).map Int.ofNat

/-! ## `parse_block_address` (`src/geocoding/block_sampling.py` lines 18-108) -/

/-- Result dictionary of `parse_block_address`. -/
structure BlockDescriptor where
  block_num : Option Int
  street_name : String
  direction : String
  suffix : String
  is_intersection : Bool
deriving Repr, DecidableEq

/-- Suffix whitelist used in the intersection and non-block branches. -/
def shortSuffixes : List String := ["ST", "AVE", "RD", "BLVD", "DR", "LN", "WAY", "PL"]

/-- Suffix whitelist used in the block branch (adds CIR and CT). -/
def fullSuffixes : List String :=
  ["ST", "AVE", "RD", "BLVD", "DR", "LN", "WAY", "PL", "CIR", "CT"]

/-- Direction whitelist. -/
def directions : List String := ["N", "S", "E", "W", "NE", "NW", "SE", "SW"]

/-- Normalization `block_address.strip().upper()`, as a character list. -/
def normalizedAddr (block_address : String) : List Char :=
  upperChars (stripChars block_address.toList)

/-- Token list of the block branch: `block_address.replace("BLOCK", "").split()`. -/
def blockParts (block_address : String) : List (List Char) :=
  splitWs (removeBLOCK (normalizedAddr block_address))

/-- Shared helper of the intersection and non-block branches: trailing-token
suffix extraction over `shortSuffixes`; `whole` is the fallback street name. -/
def suffixAndStreet (parts : List (List Char)) (whole : List Char) : String × String :=
  if parts.length ≥ 2 then
    let last := String.mk (parts.getLastD [])
    let suffix := if shortSuffixes.contains last then last else ""
    let street_name :=
      if suffix ≠ "" then String.intercalate " " (parts.dropLast.map String.mk)
      else String.mk whole
    (street_name, suffix)
  else (String.mk whole, "")

/-- Function `parse_block_address` from `src/geocoding/block_sampling.py`. -/
def parse_block_address (block_address : String) : BlockDescriptor :=
  let ba := normalizedAddr block_address
  if ba.contains '&' then
    -- intersection check
    let first_street := stripChars (ba.takeWhile (fun c => !(c == '&')))
    let parts := splitWs first_street
    let ss := suffixAndStreet parts first_street
    ⟨none, ss.1, "", ss.2, true⟩
  else if !containsSeq blockChars ba then
    -- not a block address, try to parse as regular address
    let parts := splitWs ba
    let ss := suffixAndStreet parts ba
    ⟨none, ss.1, "", ss.2, false⟩
  else
    match blockParts block_address with
    | [] => ⟨none, "", "", "", false⟩
    | p0 :: restParts =>
      let parts := p0 :: restParts
      let block_num := pyInt p0
      let hasDir : Bool :=
        decide (parts.length > 1) && directions.contains (String.mk (parts.getD 1 []))
      let direction := if hasDir then String.mk (parts.getD 1 []) else ""
      let street_start_idx := if hasDir then 2 else 1
      let lastTok := String.mk (parts.getLastD [])
      let hasSuf : Bool :=
        decide (parts.length > street_start_idx) && fullSuffixes.contains lastTok
      let suffix := if hasSuf then lastTok else ""
      let street_end_idx := if hasSuf then parts.length - 1 else parts.length
      let street_name :=
        if street_end_idx > street_start_idx then
          String.intercalate " "
            (((parts.take street_end_idx).drop street_start_idx).map String.mk)
        else ""
      ⟨block_num, street_name, direction, suffix, false⟩

/-! ## `generate_block_samples` (`src/geocoding/block_sampling.py` lines 111-140) -/

/-- Fuelled body of `pyRange`. -/
def pyRangeGo (step : Int) : Nat → Int → Int → List Int
  | 0, _, _ => []
  | fuel + 1, cur, stop =>
    if cur < stop then cur :: pyRangeGo step fuel (cur + step) stop else []

/-- Python `range(start, stop, step)` for a positive step (the only way the
source calls it). -/
def pyRange (start stop step : Int) : List Int :=
  if 0 < step then pyRangeGo step (stop - start).toNat start stop else []

/-- One generated sample line:
`" ".join([str(addr_num)] + ([direction] if direction) + [street_name] + ([suffix] if suffix))`. -/
def block_sample_line (addr_num : Int) (street_name direction suffix : String) : String :=
  String.intercalate " "
    ([toString addr_num]
      ++ (if direction ≠ "" then [direction] else [])
      ++ [street_name]
      ++ (if suffix ≠ "" then [suffix] else []))

/-- Function `generate_block_samples` from `src/geocoding/block_sampling.py`:
samples `range(block_num, block_num + 99 + 1, spacing)`. -/
def generate_block_samples (block_num : Option Int) (street_name : String)
    (direction : String := "") (suffix : String := "") (spacing : Int := 20) :
    List String :=
  match block_num with
  | none => []
  | some n =>
    if n = 0 then []
    else
      (pyRange n (n + 99 + 1) spacing).map
        (fun addr_num => block_sample_line addr_num street_name direction suffix)

/-! ## `kde_risk_surface.py` -/

/-- One row of the `geocoded_crimes` dataframe handed to `build_risk_kde`
(`lat`/`lon` in WGS84, `crime_score` the weight column). -/
structure CrimeRow where
  lat : Option ℚ
  lon : Option ℚ
  crime_score : ℚ
deriving Repr, DecidableEq

/-- A fitted `scipy.stats.gaussian_kde`: the library call always succeeds in
this model, so fitting just records the replicated dataset and the bandwidth
argument. -/
structure GaussianKDE where
  dataset : List (ℚ × ℚ)
  bw_method : Option ℚ
deriving Repr, DecidableEq

/-- The two `ValueError` raises of `build_risk_kde`
(`No valid coordinates found in geocoded_crimes`, `No points with positive
weights`); the spec files both under the `InsufficientDataError` taxon. -/
inductive InsufficientDataError where
  | noValidCoordinates
  | noPositiveWeights
deriving Repr, DecidableEq

/-- Rounding `np.round`: round half to even (banker's rounding). -/
def roundHalfEven (q : ℚ) : ℤ :=
  if q - (⌊q⌋ : ℚ) < 1 / 2 then ⌊q⌋
  else if 1 / 2 < q - (⌊q⌋ : ℚ) then ⌊q⌋ + 1
  else if ⌊q⌋ % 2 = 0 then ⌊q⌋ else ⌊q⌋ + 1

/-- Minimum `weights.min()` of a (nonempty at the call site) weight array. -/
def weight_min (ws : List ℚ) : ℚ :=
  match ws with
  | [] => 0
  | w :: t => t.foldl min w

/-- Maximum `weights.max()` of a (nonempty at the call site) weight array. -/
def weight_max (ws : List ℚ) : ℚ :=
  match ws with
  | [] => 0
  | w :: t => t.foldl max w

/-- Lines 110-122 of `build_risk_kde`: rescale weights linearly onto
`[1, max_replications]` (or a flat `max_replications` when all weights are
equal) and round to integer replication counts. -/
def normalized_replication_counts (weights : List ℚ) : List ℤ :=
  if weight_max weights > weight_min weights then
    weights.map (fun w =>
      roundHalfEven (1 + (w - weight_min weights)
        / (weight_max weights - weight_min weights) * (50 - 1)))
  else
    weights.map (fun _ => roundHalfEven 50)

/-- Replication `np.repeat` of the coordinate arrays by the integer replication counts
(lines 124-127 of `build_risk_kde`). -/
def replicated_cloud (coords : List (ℚ × ℚ)) (counts : List ℤ) : List (ℚ × ℚ) :=
  (coords.zip counts).foldr (fun pc acc => List.replicate pc.2.toNat pc.1 ++ acc) []

/-- Rows surviving the missing-coordinate filter, paired with their original
dataframe index (`valid_data`, lines 76-78). -/
def valid_rows (geocoded_crimes : List CrimeRow) : List (Nat × CrimeRow) :=
  geocoded_crimes.enum.filter (fun p => p.2.lat.isSome && p.2.lon.isSome)

/-- Weight selection of lines 94-97: the `crime_score` column of the valid
rows, or the caller-supplied array indexed by the valid rows' original
indices. -/
def selected_weights (geocoded_crimes : List CrimeRow) (weights : Option (List ℚ)) :
    List ℚ :=
  match weights with
  | none => (valid_rows geocoded_crimes).map (fun p => p.2.crime_score)
  | some ws => (valid_rows geocoded_crimes).map (fun p => ws.getD p.1 0)

/-- Line 99: `weights = np.maximum(weights, 0.0)`. -/
def clamped_weights (geocoded_crimes : List CrimeRow) (weights : Option (List ℚ)) :
    List ℚ :=
  (selected_weights geocoded_crimes weights).map (fun w => max w 0)

/-- Transformed coordinates of the valid rows (line 91:
`transform_coordinates_to_crs(lons, lats, transformer)`, with pyproj's
`transformer.transform(lons, lats)` passed in as the function `transform`
taking longitude then latitude). -/
def transformed_coords (geocoded_crimes : List CrimeRow)
    (transform : ℚ → ℚ → ℚ × ℚ) : List (ℚ × ℚ) :=
  (valid_rows geocoded_crimes).map
    (fun p => transform (p.2.lon.getD 0) (p.2.lat.getD 0))

/-- Lines 102-105: `mask = weights > 0` applied to the coordinate and weight
arrays, pairing each transformed point with its clamped weight. -/
def kept_points (geocoded_crimes : List CrimeRow)
    (transform : ℚ → ℚ → ℚ × ℚ) (weights : Option (List ℚ)) :
    List ((ℚ × ℚ) × ℚ) :=
  ((transformed_coords geocoded_crimes transform).zip
    (clamped_weights geocoded_crimes weights)).filter (fun cw => decide (cw.2 > 0))

/-- Function `build_risk_kde` from `src/geocoding/kde_risk_surface.py`. The coordinate
transformer produced by `create_coordinate_transformer` for the graph CRS is
passed in as the function `transform` (pyproj is a third-party library); the
`gaussian_kde` fit is the total constructor `GaussianKDE.mk`. -/
def build_risk_kde (geocoded_crimes : List CrimeRow)
    (transform : ℚ → ℚ → ℚ × ℚ) (bandwidth : Option ℚ)
    (weights : Option (List ℚ)) :
    Except InsufficientDataError (GaussianKDE × (ℚ → ℚ → ℚ × ℚ)) :=
  if (valid_rows geocoded_crimes).length = 0 then .error .noValidCoordinates
  else if (kept_points geocoded_crimes transform weights).length = 0 then
    .error .noPositiveWeights
  else
    .ok (⟨replicated_cloud
        ((kept_points geocoded_crimes transform weights).map (fun cw => cw.1))
        (normalized_replication_counts
          ((kept_points geocoded_crimes transform weights).map (fun cw => cw.2))),
      bandwidth⟩, transform)

/-- Function `evaluate_kde_at_points` from `src/geocoding/kde_risk_surface.py`.
`kde` is the fitted estimator's evaluation map (an arbitrary function: the
claims hold for every fitted KDE); `points` is the `(n, 2)` input array as a
list of rows, and the shape guard demands every row to have two columns. -/
def evaluate_kde_at_points (kde : List (ℚ × ℚ) → List ℚ)
    (points : List (List ℚ)) : Except String (List ℚ) :=
  if !points.all (fun row => row.length == 2) then
    .error "points must have shape with columns x, y"
  else
    let pts := points.map (fun row => (row.getD 0 0, row.getD 1 0))
    let risk_scores := kde pts
    -- non-negative
    .ok (risk_scores.map (fun x => max x 0))

/-! ## Time-bucket selection (`src/graph/create_graph.py`, `run_kde_on_graph`) -/

/-- One crime record as seen by `run_kde_on_graph`: its `Interval of Day`
string plus its (already parsed) coordinates. -/
structure CrimeRecord where
  interval_of_day : String
  lat : ℚ
  lon : ℚ
deriving Repr, DecidableEq

/-- Column `interval_start`: first field of the stripped
interval string, parsed as an integer (`astype(int)`). -/
def interval_start_of (r : CrimeRecord) : Option Int :=
  ((splitOnChar '-' (stripChars r.interval_of_day.toList)).get? 0).bind pyInt

/-- Column `interval_end`: second field of the stripped
interval string, parsed as an integer (`astype(int)`). -/
def interval_end_of (r : CrimeRecord) : Option Int :=
  ((splitOnChar '-' (stripChars r.interval_of_day.toList)).get? 1).bind pyInt

/-- Lines 132-140 of `run_kde_on_graph`:
`mask = (interval_start <= time_of_day) & (interval_end > time_of_day)`;
`bucket_gdf = crime_geo_data.loc[mask]`. -/
def select_time_bucket (crime_geo_data : List CrimeRecord) (time_of_day : Int) :
    List CrimeRecord :=
  crime_geo_data.filter (fun r =>
    match interval_start_of r, interval_end_of r with
    | some s, some e => decide (s ≤ time_of_day) && decide (e > time_of_day)
    | _, _ => false)

/-! ## Risk-cost derivation (`add_risk_cost_weights`) -/

/-- A street-graph edge as the risk-cost derivation sees it: its physical
`length` and the KDE density score stored under the chosen bucket attribute. -/
structure KdeEdge where
  length : ℚ
  risk : ℚ
deriving Repr, DecidableEq

/-- Modelled from the spec: `add_risk_cost_weights` is imported from
`graph.create_graph` by `src/graph/main.py` and `src/graph/evaluate_routes.py`
but its definition is not among the source files; §4.5 step 5 of the spec
defines it. `max_risk` across all edges, substituting 1.0 when all risks are
zero. -/
def max_risk_of (edges : List KdeEdge) : ℚ :=
  if (edges.map (fun e => e.risk)).foldl max 0 = 0 then 1
  else (edges.map (fun e => e.risk)).foldl max 0

/-- Modelled from the spec: `add_risk_cost_weights` (missing from the source
files, spec §4.5 step 5): for each edge,
`risk_cost = length * (1 + alpha * (risk / max_risk))` with `alpha`
defaulting to 3.0; returns each edge paired with its new `risk_cost`
attribute. -/
def add_risk_cost_weights (edges : List KdeEdge) (alpha : ℚ := 3) :
    List (KdeEdge × ℚ) :=
  let mr := max_risk_of edges
  edges.map (fun e => (e, e.length * (1 + alpha * (e.risk / mr))))

/-! ## Route search (`nx.astar_path` in `src/graph/main.py` and
`src/graph/evaluate_routes.py`) -/

/-- A directed street-graph edge carrying the two weight attributes the two
searches minimize: `length` and `risk_cost`. -/
structure REdge where
  src : Nat
  dst : Nat
  length : ℚ
  risk_cost : ℚ
deriving Repr, DecidableEq

/-- Total weight of a path (a list of edges) under a weight attribute. -/
def pathWeight (w : REdge → ℚ) (p : List REdge) : ℚ := (p.map w).sum

/-- All paths from `s` to `t` using at most `fuel` edges, enumerated in edge
list order: the common candidate universe of the two `nx.astar_path` calls. -/
def pathsUpTo (es : List REdge) (t : Nat) : Nat → Nat → List (List REdge)
  | s, 0 => if s = t then [[]] else []
  | s, fuel + 1 =>
    (if s = t then [[]] else [])
      ++ (es.filter (fun e => e.src == s)).foldr
          (fun e acc => ((pathsUpTo es t e.dst fuel).map (fun p => e :: p)) ++ acc) []

/-- First minimizer of `f` in a list (ties keep the earlier element). -/
def argminBy (f : α → ℚ) : List α → Option α
  | [] => none
  | x :: xs => some (xs.foldl (fun b y => if f y < f b then y else b) x)

/-- Model of `nx.astar_path(G, source, target, weight, heuristic)`: with the
straight-line Euclidean heuristic (admissible for `length`, hence for
`risk_cost` which dominates `length`), A-star returns a path of minimal total
weight; ties between equal-weight paths are broken deterministically, here by
enumeration order. -/
def astar_path (es : List REdge) (s t : Nat) (w : REdge → ℚ) (fuel : Nat) :
    Option (List REdge) :=
  argminBy (pathWeight w) (pathsUpTo es t s fuel)

/-- Four-node example graph with two routes of equal length 2 from node 0 to
node 3; the route through node 1 carries the maximal risk cost (4 per edge,
consistent with `risk_cost = length * (1 + 3 * risk / max_risk)`), the route
through node 2 carries zero risk (cost = length). -/
def routeExampleEdges : List REdge :=
  [⟨0, 1, 1, 4⟩, ⟨1, 3, 1, 4⟩, ⟨0, 2, 1, 1⟩, ⟨2, 3, 1, 1⟩]

/-! ## `batch_geocode_addresses` (`src/geocoding/block_sampling.py`
lines 155-210) -/

/-- Outcome of the one blocking `requests.post` call for a batch. -/
inductive GeoOutcome where
  | success (rows : List String)
  | httpError (status : Nat) (body : String)
  | requestExc (msg : String)
deriving Repr, DecidableEq

/-- Failures `batch_geocode_addresses` propagates: the
`RuntimeError(f"Geocoding API error: {status} - {text}")` raise, or a
re-raised exception from the request itself. -/
inductive GeoError where
  | apiError (status : Nat) (body : String)
  | excRaised (msg : String)
deriving Repr, DecidableEq

/-- Name `temp_geocoding_batch_<k>.csv` of the temp file for the batch starting at row `i`. -/
def tempCsvName (i : Nat) : String :=
  "temp_geocoding_batch_" ++ toString (i / 9999 + 1) ++ ".csv"

/-- One iteration of the batch loop, acting on the set of existing files
`fs`: `to_csv` creates the temp file, the request body runs under
`try ... finally`, and the `finally` block unlinks the temp file when it
exists. Returns the file set after the iteration and the Python control-flow
result. -/
def processBatch (i : Nat) (outcome : GeoOutcome) (fs : List String) :
    List String × Except GeoError (List String) :=
  let temp_csv := tempCsvName i
  let fs1 := temp_csv :: fs
  let result : Except GeoError (List String) :=
    match outcome with
    | .success rows => .ok rows
    | .httpError status body => .error (.apiError status body)
    | .requestExc msg => .error (.excRaised msg)
  let fs2 := if fs1.contains temp_csv then fs1.erase temp_csv else fs1
  (fs2, result)

/-- The batch loop of `batch_geocode_addresses`: each pending batch is the
pair of its starting row index and its request outcome; an error aborts the
loop (after the `finally` cleanup of the current iteration). -/
def batch_geocode_addresses (batches : List (Nat × GeoOutcome)) (fs : List String) :
    List String × Except GeoError (List (List String)) :=
  match batches with
  | [] => (fs, .ok [])
  | b :: rest =>
    match processBatch b.1 b.2 fs with
    | (fs1, .error e) => (fs1, .error e)
    | (fs1, .ok rows) =>
      match batch_geocode_addresses rest fs1 with
      | (fs2, .error e) => (fs2, .error e)
      | (fs2, .ok acc) => (fs2, .ok (rows :: acc))

/-! ## `process_all_block_addresses` final filter
(`src/geocoding/block_sampling.py` lines 376-382) -/

/-- One row of the concatenated geocoded-sample results. -/
structure GeocodedSample where
  sample_address : String
  geocode_status : String
  lat : Option ℚ
  lon : Option ℚ
  crime_score : ℚ
deriving Repr, DecidableEq

/-- The final filter of `process_all_block_addresses`:
`result_df[result_df["geocode_status"].isin(["Match", "Tie"]) &
result_df["lat"].notna() & result_df["lon"].notna()]`, applied to the
concatenation of all per-block geocoded samples (the upstream grouping and
geocoding are network I/O). -/
def process_all_block_addresses (result_df : List GeocodedSample) :
    List GeocodedSample :=
  result_df.filter (fun r =>
    (r.geocode_status == "Match" || r.geocode_status == "Tie")
      && r.lat.isSome && r.lon.isSome)

/-! ## Helper lemmas -/

theorem processBatch_eq (i : Nat) (o : GeoOutcome) (fs : List String) :
    processBatch i o fs =
      (fs, match o with
        | .success rows => .ok rows
        | .httpError status body => .error (.apiError status body)
        | .requestExc msg => .error (.excRaised msg)) := by
  unfold processBatch
  simp [List.contains_cons]

/-! ## Claim theorems -/

/-- C3: for every fitted KDE and every input array of planar points accepted
by the shape guard, every density value returned by `evaluate_kde_at_points`
is nonnegative (the results are clamped with `np.maximum(risk_scores, 0.0)`),
including for points arbitrarily far outside the training cloud. -/
theorem evaluate_kde_at_points_nonneg (kde : List (ℚ × ℚ) → List ℚ)
    (points : List (List ℚ)) (res : List ℚ)
    (h : evaluate_kde_at_points kde points = .ok res) :
    ∀ x ∈ res, 0 ≤ x := by
  unfold evaluate_kde_at_points at h
  split at h
  · cases h
  · simp only [Except.ok.injEq] at h
    subst h
    intro x hx
    simp only [List.mem_map] at hx
    obtain ⟨y, -, rfl⟩ := hx
    exact le_max_right y 0

/-- C3 witness: a KDE evaluation map that reports a negative raw density at a
concrete point still yields a nonnegative result list. -/
theorem evaluate_kde_at_points_nonneg_witness :
    evaluate_kde_at_points (fun _ => [-5, 3]) [[1, 2]] = .ok [0, 3]
      ∧ (0 : ℚ) ≤ 0 := by
  refine ⟨by rfl, ?_⟩
  exact evaluate_kde_at_points_nonneg (fun _ => [-5, 3]) [[1, 2]] [0, 3] (by rfl)
    0 (by decide)

/-- C6: bucket selection in `run_kde_on_graph` keeps exactly those crime
points whose interval string `start-end` satisfies `start ≤ hour < end`
(the mask is `interval_start <= hour` and `interval_end > hour`), so a point
whose interval ends at the requested hour is excluded. -/
theorem bucket_selection_half_open (rows : List CrimeRecord) (t : Int)
    (r : CrimeRecord) (s e : Int) (hr : r ∈ rows)
    (hs : interval_start_of r = some s) (he : interval_end_of r = some e) :
    r ∈ select_time_bucket rows t ↔ (s ≤ t ∧ t < e) := by
  unfold select_time_bucket
  rw [List.mem_filter]
  rw [hs, he]
  simp [hr, and_comm]

/-- C6 witness: a point with interval `10-14` is excluded from the bucket for
hour 14 (its interval ends exactly at the requested hour). -/
theorem bucket_selection_half_open_witness :
    ((⟨"10-14", 0, 0⟩ : CrimeRecord) ∈
        select_time_bucket [⟨"10-14", 0, 0⟩] 14) ↔
      ((10 : Int) ≤ 14 ∧ (14 : Int) < 14) :=
  bucket_selection_half_open [⟨"10-14", 0, 0⟩] 14 ⟨"10-14", 0, 0⟩ 10 14
    (by decide) (by decide) (by decide)

/-- C8: in `batch_geocode_addresses` the per-batch temp CSV is created before
the request and removed by the `finally` block on every exit path, so the
file set after the loop equals the file set before it; a non-success response
status aborts the batch with an error carrying the status and body, and an
exception during the request also propagates after cleanup. -/
theorem batch_geocode_temp_files_cleaned (batches : List (Nat × GeoOutcome))
    (fs : List String) :
    (batch_geocode_addresses batches fs).1 = fs
    ∧ (∀ i status body fs0,
        processBatch i (.httpError status body) fs0 =
          (fs0, .error (.apiError status body)))
    ∧ (∀ i rows fs0, processBatch i (.success rows) fs0 = (fs0, .ok rows))
    ∧ (∀ i msg fs0,
        processBatch i (.requestExc msg) fs0 = (fs0, .error (.excRaised msg))) := by
  refine ⟨?_, fun i status body fs0 => processBatch_eq i _ fs0,
    fun i rows fs0 => processBatch_eq i _ fs0,
    fun i msg fs0 => processBatch_eq i _ fs0⟩
  induction batches generalizing fs with
  | nil => rfl
  | cons b rest ih =>
    unfold batch_geocode_addresses
    rw [processBatch_eq]
    cases b.2 with
    | success rows =>
      simp only
      have h := ih fs
      cases hrec : batch_geocode_addresses rest fs with
      | mk fs2 r =>
        rw [hrec] at h
        cases r <;> simpa using h
    | httpError status body => rfl
    | requestExc msg => rfl

/-- C10: every row surviving the final filter of
`process_all_block_addresses` has `geocode_status` equal to `Match` or `Tie`
and non-null `lat` and `lon`; conversely a `Tie` row with coordinates is
retained, not dropped. -/
theorem process_all_block_addresses_matched (rows : List GeocodedSample)
    (r : GeocodedSample) :
    (r ∈ process_all_block_addresses rows →
      (r.geocode_status = "Match" ∨ r.geocode_status = "Tie")
        ∧ r.lat.isSome = true ∧ r.lon.isSome = true)
    ∧ (r ∈ rows → r.geocode_status = "Tie" → r.lat.isSome = true →
        r.lon.isSome = true → r ∈ process_all_block_addresses rows) := by
  unfold process_all_block_addresses
  constructor
  · intro h
    rw [List.mem_filter] at h
    obtain ⟨-, h2⟩ := h
    simp only [Bool.and_eq_true, Bool.or_eq_true, beq_iff_eq] at h2
    tauto
  · intro h1 h2 h3 h4
    rw [List.mem_filter]
    refine ⟨h1, ?_⟩
    simp [h2, h3, h4]

/-- C10 witness: a concrete `Tie` row with coordinates is in the filtered
result. -/
theorem process_all_block_addresses_matched_witness :
    (⟨"a", "Tie", some 1, some 2, 0⟩ : GeocodedSample) ∈
      process_all_block_addresses [⟨"a", "Tie", some 1, some 2, 0⟩] :=
  (process_all_block_addresses_matched [⟨"a", "Tie", some 1, some 2, 0⟩]
    ⟨"a", "Tie", some 1, some 2, 0⟩).2 (by decide) rfl rfl rfl

theorem foldl_max_init_le (l : List ℚ) (a : ℚ) : a ≤ l.foldl max a := by
  induction l generalizing a with
  | nil => exact le_refl a
  | cons y t ih => exact le_trans (le_max_left a y) (ih (max a y))

theorem foldl_max_mem_le (l : List ℚ) (a x : ℚ) (hx : x ∈ l) :
    x ≤ l.foldl max a := by
  induction l generalizing a with
  | nil => cases hx
  | cons y t ih =>
    rcases List.mem_cons.mp hx with rfl | hx2
    · exact le_trans (le_max_right a x) (foldl_max_init_le t (max a x))
    · exact ih (max a y) hx2

theorem max_risk_of_pos (edges : List KdeEdge)
    (h : ∀ e ∈ edges, 0 ≤ e.risk) : 0 < max_risk_of edges := by
  unfold max_risk_of
  split
  · exact one_pos
  · rename_i hne
    rcases lt_or_eq_of_le (foldl_max_init_le (edges.map (fun e => e.risk)) 0) with hlt | heq
    · exact hlt
    · exact absurd heq.symm hne

theorem risk_le_max_risk_of (edges : List KdeEdge) (e : KdeEdge)
    (hmem : e ∈ edges) (h : ∀ e2 ∈ edges, 0 ≤ e2.risk) :
    e.risk ≤ max_risk_of edges := by
  have hin : e.risk ∈ edges.map (fun e2 => e2.risk) :=
    List.mem_map.mpr ⟨e, hmem, rfl⟩
  have hle := foldl_max_mem_le (edges.map (fun e2 => e2.risk)) 0 e.risk hin
  unfold max_risk_of
  split
  · rename_i hzero
    rw [hzero] at hle
    exact le_trans hle one_pos.le
  · exact hle

/-- C1: after `add_risk_cost_weights` runs (amplification factor `alpha`,
default 3.0), every edge's `risk_cost` satisfies
`length ≤ risk_cost ≤ length * (1 + alpha)`, where
`risk_cost = length * (1 + alpha * (risk / max_risk))` with `max_risk` taken
over all edges and substituted by 1.0 when all risks are zero. The edge risks
are the KDE densities, hence nonnegative. -/
theorem add_risk_cost_weights_bounds (edges : List KdeEdge) (alpha : ℚ)
    (e : KdeEdge) (c : ℚ) (ha : 0 ≤ alpha)
    (hrisk : ∀ e2 ∈ edges, 0 ≤ e2.risk) (hlen : 0 ≤ e.length)
    (hmem : (e, c) ∈ add_risk_cost_weights edges alpha) :
    e.length ≤ c ∧ c ≤ e.length * (1 + alpha) := by
  unfold add_risk_cost_weights at hmem
  simp only [List.mem_map, Prod.mk.injEq] at hmem
  obtain ⟨e2, he2, rfl, rfl⟩ := hmem
  have hmr : 0 < max_risk_of edges := max_risk_of_pos edges hrisk
  have hrle : e2.risk ≤ max_risk_of edges := risk_le_max_risk_of edges e2 he2 hrisk
  have hr0 : 0 ≤ e2.risk := hrisk e2 he2
  have hq0 : 0 ≤ e2.risk / max_risk_of edges := div_nonneg hr0 hmr.le
  have hq1 : e2.risk / max_risk_of edges ≤ 1 := (div_le_one hmr).mpr hrle
  constructor
  · have h1 : (1 : ℚ) ≤ 1 + alpha * (e2.risk / max_risk_of edges) := by
      nlinarith
    exact le_mul_of_one_le_right hlen h1
  · have h2 : 1 + alpha * (e2.risk / max_risk_of edges) ≤ 1 + alpha := by
      nlinarith
    exact mul_le_mul_of_nonneg_left h2 hlen

/-- C1 witness: concrete annotated graph with two edges; the maximal-risk
edge of length 2 gets risk cost 8 = 2 * (1 + 3). -/
theorem add_risk_cost_weights_bounds_witness :
    ((⟨2, 1⟩ : KdeEdge), (8 : ℚ)) ∈ add_risk_cost_weights [⟨2, 1⟩, ⟨3, 0⟩] 3
      ∧ (⟨2, 1⟩ : KdeEdge).length ≤ 8
      ∧ (8 : ℚ) ≤ (⟨2, 1⟩ : KdeEdge).length * (1 + 3) := by
  have heval : add_risk_cost_weights [⟨2, 1⟩, ⟨3, 0⟩] 3 = [(⟨2, 1⟩, 8), (⟨3, 0⟩, 3)] := by
    norm_num [add_risk_cost_weights, max_risk_of]
  have hmem : ((⟨2, 1⟩ : KdeEdge), (8 : ℚ)) ∈ add_risk_cost_weights [⟨2, 1⟩, ⟨3, 0⟩] 3 := by
    rw [heval]
    exact List.mem_cons_self _ _
  refine ⟨hmem, ?_⟩
  refine add_risk_cost_weights_bounds [⟨2, 1⟩, ⟨3, 0⟩] 3 ⟨2, 1⟩ 8 (by norm_num)
    ?_ (by norm_num) hmem
  intro e2 he2
  fin_cases he2 <;> norm_num

theorem foldl_minSel_mem (f : α → ℚ) (xs : List α) (b : α) :
    xs.foldl (fun b2 y => if f y < f b2 then y else b2) b ∈ b :: xs := by
  induction xs generalizing b with
  | nil => exact List.mem_singleton.mpr rfl
  | cons y t ih =>
    simp only [List.foldl_cons]
    have h := ih (if f y < f b then y else b)
    rcases List.mem_cons.mp h with heq | hmem
    · rw [heq]
      split
      · exact List.mem_cons_of_mem b (List.mem_cons_self y t)
      · exact List.mem_cons_self b (y :: t)
    · exact List.mem_cons_of_mem b (List.mem_cons_of_mem y hmem)

theorem foldl_minSel_le (f : α → ℚ) (xs : List α) (b : α) :
    f (xs.foldl (fun b2 y => if f y < f b2 then y else b2) b) ≤ f b
      ∧ ∀ y ∈ xs, f (xs.foldl (fun b2 y => if f y < f b2 then y else b2) b) ≤ f y := by
  induction xs generalizing b with
  | nil => exact ⟨le_refl _, fun y hy => absurd hy (List.not_mem_nil y)⟩
  | cons z t ih =>
    simp only [List.foldl_cons]
    have h := ih (if f z < f b then z else b)
    have hinit : f (if f z < f b then z else b) ≤ f b := by
      split
      · rename_i hlt; exact hlt.le
      · exact le_refl _
    have hinitz : f (if f z < f b then z else b) ≤ f z := by
      split
      · exact le_refl _
      · rename_i hnlt; exact le_of_not_lt hnlt
    refine ⟨le_trans h.1 hinit, fun y hy => ?_⟩
    rcases List.mem_cons.mp hy with rfl | hmem
    · exact le_trans h.1 hinitz
    · exact h.2 y hmem

theorem argminBy_mem (f : α → ℚ) (l : List α) (x : α)
    (h : argminBy f l = some x) : x ∈ l := by
  cases l with
  | nil => cases h
  | cons a t =>
    unfold argminBy at h
    simp only [Option.some.injEq] at h
    rw [← h]
    exact foldl_minSel_mem f t a

theorem argminBy_min (f : α → ℚ) (l : List α) (x : α)
    (h : argminBy f l = some x) : ∀ y ∈ l, f x ≤ f y := by
  cases l with
  | nil => cases h
  | cons a t =>
    unfold argminBy at h
    simp only [Option.some.injEq] at h
    rw [← h]
    intro y hy
    rcases List.mem_cons.mp hy with rfl | hmem
    · exact (foldl_minSel_le f t _).1
    · exact (foldl_minSel_le f t _).2 y hmem

/-- C2 (amended): for a common origin/destination pair, the total `length` of
the path returned by the search minimizing `risk_cost` is at least the total
`length` of the path returned by the search minimizing `length`; equality can
also occur when the two paths differ (see the counterexample). -/
theorem risk_path_not_shorter (es : List REdge) (s t fuel : Nat)
    (p1 p2 : List REdge)
    (h1 : astar_path es s t (fun e => e.length) fuel = some p1)
    (h2 : astar_path es s t (fun e => e.risk_cost) fuel = some p2) :
    pathWeight (fun e => e.length) p1 ≤ pathWeight (fun e => e.length) p2 := by
  unfold astar_path at h1 h2
  exact argminBy_min _ _ _ h1 p2 (argminBy_mem _ _ _ h2)

theorem pathsUpTo_example :
    pathsUpTo routeExampleEdges 3 0 4 =
      [[⟨0, 1, 1, 4⟩, ⟨1, 3, 1, 4⟩], [⟨0, 2, 1, 1⟩, ⟨2, 3, 1, 1⟩]] := rfl

theorem astar_length_example :
    astar_path routeExampleEdges 0 3 (fun e => e.length) 4 =
      some [⟨0, 1, 1, 4⟩, ⟨1, 3, 1, 4⟩] := by
  unfold astar_path
  rw [pathsUpTo_example]
  norm_num [argminBy, pathWeight]

theorem astar_risk_example :
    astar_path routeExampleEdges 0 3 (fun e => e.risk_cost) 4 =
      some [⟨0, 2, 1, 1⟩, ⟨2, 3, 1, 1⟩] := by
  unfold astar_path
  rw [pathsUpTo_example]
  norm_num [argminBy, pathWeight]

/-- C2 witness: on the example graph, the risk-aware route's length (2) is at
least the distance-only route's length (2). -/
theorem risk_path_not_shorter_witness :
    pathWeight (fun e => e.length) [⟨0, 1, 1, 4⟩, ⟨1, 3, 1, 4⟩]
      ≤ pathWeight (fun e => e.length) [⟨0, 2, 1, 1⟩, ⟨2, 3, 1, 1⟩] :=
  risk_path_not_shorter routeExampleEdges 0 3 4
    [⟨0, 1, 1, 4⟩, ⟨1, 3, 1, 4⟩] [⟨0, 2, 1, 1⟩, ⟨2, 3, 1, 1⟩]
    astar_length_example astar_risk_example

/-- C2 counterexample: on a non-degenerate graph with non-uniform risk costs
(the example graph), the two searches return paths of equal total length that
do not coincide, refuting the claim's `equality only when the two paths
coincide` clause. -/
theorem risk_path_equality_counterexample :
    astar_path routeExampleEdges 0 3 (fun e => e.length) 4 =
      some [⟨0, 1, 1, 4⟩, ⟨1, 3, 1, 4⟩]
    ∧ astar_path routeExampleEdges 0 3 (fun e => e.risk_cost) 4 =
      some [⟨0, 2, 1, 1⟩, ⟨2, 3, 1, 1⟩]
    ∧ pathWeight (fun e => e.length) [⟨0, 1, 1, 4⟩, ⟨1, 3, 1, 4⟩] =
      pathWeight (fun e => e.length) [⟨0, 2, 1, 1⟩, ⟨2, 3, 1, 1⟩]
    ∧ ([⟨0, 1, 1, 4⟩, ⟨1, 3, 1, 4⟩] : List REdge) ≠
      [⟨0, 2, 1, 1⟩, ⟨2, 3, 1, 1⟩] := by
  refine ⟨astar_length_example, astar_risk_example, by norm_num [pathWeight], ?_⟩
  intro h
  simp only [List.cons.injEq, REdge.mk.injEq] at h
  norm_num at h

theorem foldl_min_init_le (l : List ℚ) (a : ℚ) : l.foldl min a ≤ a := by
  induction l generalizing a with
  | nil => exact le_refl a
  | cons y t ih => exact le_trans (ih (min a y)) (min_le_left a y)

theorem foldl_min_mem_le (l : List ℚ) (a x : ℚ) (hx : x ∈ l) :
    l.foldl min a ≤ x := by
  induction l generalizing a with
  | nil => cases hx
  | cons y t ih =>
    rcases List.mem_cons.mp hx with rfl | hx2
    · exact le_trans (foldl_min_init_le t (min a x)) (min_le_right a x)
    · exact ih (min a y) hx2

theorem weight_min_le (ws : List ℚ) (x : ℚ) (hx : x ∈ ws) : weight_min ws ≤ x := by
  cases ws with
  | nil => cases hx
  | cons w t =>
    unfold weight_min
    rcases List.mem_cons.mp hx with rfl | hx2
    · exact foldl_min_init_le t x
    · exact foldl_min_mem_le t w x hx2

theorem le_weight_max (ws : List ℚ) (x : ℚ) (hx : x ∈ ws) : x ≤ weight_max ws := by
  cases ws with
  | nil => cases hx
  | cons w t =>
    unfold weight_max
    rcases List.mem_cons.mp hx with rfl | hx2
    · exact foldl_max_init_le t x
    · exact foldl_max_mem_le t w x hx2

theorem le_roundHalfEven (a : ℤ) (q : ℚ) (h : (a : ℚ) ≤ q) :
    a ≤ roundHalfEven q := by
  have hf : a ≤ ⌊q⌋ := Int.le_floor.mpr h
  unfold roundHalfEven
  split
  · exact hf
  · split
    · omega
    · split <;> omega

theorem roundHalfEven_le (b : ℤ) (q : ℚ) (h : q ≤ b) :
    roundHalfEven q ≤ b := by
  have hfb : ⌊q⌋ ≤ b := by
    have := Int.floor_le_floor h
    rwa [Int.floor_intCast] at this
  have hsucc : ¬ q - (⌊q⌋ : ℚ) < 1 / 2 → ⌊q⌋ + 1 ≤ b := by
    intro hr
    push_neg at hr
    by_contra hc
    push_neg at hc
    have hb : b = ⌊q⌋ := by omega
    have hbq : (b : ℚ) = (⌊q⌋ : ℚ) := by exact_mod_cast congrArg Int.cast hb
    have hfloor : (⌊q⌋ : ℚ) ≤ q := Int.floor_le q
    linarith
  unfold roundHalfEven
  split
  · exact hfb
  · rename_i hr
    split
    · exact hsucc hr
    · split
      · exact hfb
      · exact hsucc hr

theorem roundHalfEven_intCast (n : ℤ) : roundHalfEven (n : ℚ) = n := by
  unfold roundHalfEven
  rw [Int.floor_intCast]
  rw [if_pos (by norm_num)]

theorem roundHalfEven_fifty : roundHalfEven (50 : ℚ) = 50 := by
  rw [show (50 : ℚ) = ((50 : ℤ) : ℚ) by norm_num, roundHalfEven_intCast]

theorem replicated_cloud_length (coords : List (ℚ × ℚ)) (counts : List ℤ) :
    (replicated_cloud coords counts).length =
      ((coords.zip counts).map (fun pc => pc.2.toNat)).sum := by
  unfold replicated_cloud
  induction coords.zip counts with
  | nil => rfl
  | cons pc t ih => simp [ih]

theorem sum_le_fifty_mul_length (l : List ℕ) (h : ∀ x ∈ l, x ≤ 50) :
    l.sum ≤ 50 * l.length := by
  induction l with
  | nil => simp
  | cons x t ih =>
    simp only [List.sum_cons, List.length_cons]
    have hx := h x (List.mem_cons_self x t)
    have ht := ih (fun y hy => h y (List.mem_cons_of_mem x hy))
    omega

theorem getD_map_of_lt (g : ℚ → ℤ) (l : List ℚ) (i : ℕ) (hi : i < l.length) :
    (l.map g).getD i 0 = g (l.getD i 0) := by
  rw [List.getD_eq_get?, List.getD_eq_get?, List.get?_map]
  cases hq : l.get? i with
  | none => exact absurd (List.get?_eq_none.mp hq) (by omega)
  | some w => rfl

/-- C7: in `build_risk_kde`, after invalid and zero-weight points are
dropped, every surviving point's integer replication count lies in `[1, 50]`;
a weight equal to the observed minimum maps to 1 and one equal to the
observed maximum to 50 when the weights are not all equal, every point gets a
flat 50 when they are, and the replicated point cloud holds at most 50 times
the number of surviving points. -/
theorem replication_counts_in_range (ws : List ℚ) (hne : ws ≠ []) :
    (∀ c ∈ normalized_replication_counts ws, 1 ≤ c ∧ c ≤ 50)
    ∧ (weight_min ws < weight_max ws →
        ∀ i, i < ws.length →
          (ws.getD i 0 = weight_min ws →
            (normalized_replication_counts ws).getD i 0 = 1)
          ∧ (ws.getD i 0 = weight_max ws →
            (normalized_replication_counts ws).getD i 0 = 50))
    ∧ (weight_min ws = weight_max ws →
        normalized_replication_counts ws = List.replicate ws.length 50)
    ∧ (∀ coords : List (ℚ × ℚ), coords.length = ws.length →
        (replicated_cloud coords (normalized_replication_counts ws)).length
          ≤ 50 * ws.length) := by
  have hbounds : ∀ c ∈ normalized_replication_counts ws, 1 ≤ c ∧ c ≤ 50 := by
    intro c hc
    unfold normalized_replication_counts at hc
    split at hc
    · rename_i hlt
      simp only [List.mem_map] at hc
      obtain ⟨w, hw, rfl⟩ := hc
      have hd : (0 : ℚ) < weight_max ws - weight_min ws := by
        simp only [gt_iff_lt] at hlt
        linarith
      have h0 : (0 : ℚ) ≤ (w - weight_min ws) / (weight_max ws - weight_min ws) :=
        div_nonneg (by linarith [weight_min_le ws w hw]) hd.le
      have h1 : (w - weight_min ws) / (weight_max ws - weight_min ws) ≤ 1 :=
        (div_le_one hd).mpr (by linarith [le_weight_max ws w hw])
      constructor
      · refine le_roundHalfEven 1 _ ?_
        push_cast
        linarith
      · refine roundHalfEven_le 50 _ ?_
        push_cast
        linarith
    · simp only [List.mem_map] at hc
      obtain ⟨w, hw, rfl⟩ := hc
      rw [roundHalfEven_fifty]
      exact ⟨by norm_num, le_refl 50⟩
  refine ⟨hbounds, ?_, ?_, ?_⟩
  · intro hlt i hi
    have hmap : normalized_replication_counts ws =
        ws.map (fun w => roundHalfEven
          (1 + (w - weight_min ws) / (weight_max ws - weight_min ws) * (50 - 1))) := by
      unfold normalized_replication_counts
      rw [if_pos hlt]
    have hcount : (normalized_replication_counts ws).getD i 0 =
        roundHalfEven (1 + (ws.getD i 0 - weight_min ws)
          / (weight_max ws - weight_min ws) * (50 - 1)) := by
      rw [hmap, getD_map_of_lt _ ws i hi]
    constructor
    · intro hmin
      rw [hcount, hmin]
      rw [show (1 : ℚ) + (weight_min ws - weight_min ws)
          / (weight_max ws - weight_min ws) * (50 - 1) = ((1 : ℤ) : ℚ) by
        rw [sub_self, zero_div, zero_mul, add_zero]; norm_num]
      exact roundHalfEven_intCast 1
    · intro hmax
      rw [hcount, hmax]
      rw [show (1 : ℚ) + (weight_max ws - weight_min ws)
          / (weight_max ws - weight_min ws) * (50 - 1) = ((50 : ℤ) : ℚ) by
        rw [div_self (by linarith : weight_max ws - weight_min ws ≠ 0)]; norm_num]
      exact roundHalfEven_intCast 50
  · intro heq
    unfold normalized_replication_counts
    rw [if_neg (by rw [heq]; exact lt_irrefl _)]
    rw [roundHalfEven_fifty]
    exact List.map_const' ws 50
  · intro coords hlen
    rw [replicated_cloud_length]
    have hsum := sum_le_fifty_mul_length
      ((coords.zip (normalized_replication_counts ws)).map (fun pc => pc.2.toNat)) ?_
    · have hcl : (normalized_replication_counts ws).length = ws.length := by
        unfold normalized_replication_counts
        split <;> simp
      have hzl : ((coords.zip (normalized_replication_counts ws)).map
          (fun pc => pc.2.toNat)).length = ws.length := by
        rw [List.length_map, List.length_zip, hlen, hcl, min_self]
      rw [hzl] at hsum
      exact hsum
    · intro x hx
      simp only [List.mem_map] at hx
      obtain ⟨pc, hpc, rfl⟩ := hx
      have h2 := (List.of_mem_zip hpc).2
      have hb := hbounds pc.2 h2
      omega

/-- C7 witness: for surviving weights `[1, 3]` the first replication count
(which is 1, the image of the minimum weight) lies in `[1, 50]`. -/
theorem replication_counts_in_range_witness :
    1 ≤ (normalized_replication_counts [1, 3]).getD 0 0
      ∧ (normalized_replication_counts [1, 3]).getD 0 0 ≤ 50 := by
  have heval : normalized_replication_counts [1, 3] = [1, 50] := by
    norm_num [normalized_replication_counts, weight_min, weight_max, roundHalfEven]
  have hmem : (normalized_replication_counts [1, 3]).getD 0 0 ∈
      normalized_replication_counts [1, 3] := by
    rw [heval]
    exact List.mem_cons_self _ _
  exact (replication_counts_in_range [1, 3] (by simp)).1 _ hmem

theorem forall_zip_snd {α β : Type} (l1 : List α) (l2 : List β)
    (h : l1.length = l2.length) (p : β → Prop) :
    (∀ xy ∈ l1.zip l2, p xy.2) ↔ ∀ y ∈ l2, p y := by
  induction l1 generalizing l2 with
  | nil =>
    cases l2 with
    | nil => simp
    | cons y t => cases h
  | cons x t1 ih =>
    cases l2 with
    | nil => cases h
    | cons y t2 =>
      simp only [List.zip_cons_cons, List.mem_cons, forall_eq_or_imp]
      rw [ih t2 (by simpa using h)]

theorem valid_rows_nil_iff (rows : List CrimeRow) :
    valid_rows rows = [] ↔ ∀ r ∈ rows, r.lat = none ∨ r.lon = none := by
  unfold valid_rows
  rw [List.filter_eq_nil]
  constructor
  · intro h r hr
    rw [← List.enum_map_snd rows] at hr
    simp only [List.mem_map] at hr
    obtain ⟨a, ha, rfl⟩ := hr
    have h2 := h a ha
    simpa only [Bool.and_eq_true, not_and_or, Option.not_isSome_iff_eq_none]
      using h2
  · intro h a ha
    have ha2 : a.2 ∈ rows := by
      rw [← List.enum_map_snd rows]
      exact List.mem_map.mpr ⟨a, ha, rfl⟩
    simpa only [Bool.and_eq_true, not_and_or, Option.not_isSome_iff_eq_none]
      using h a.2 ha2

theorem transformed_coords_length (rows : List CrimeRow)
    (transform : ℚ → ℚ → ℚ × ℚ) :
    (transformed_coords rows transform).length = (valid_rows rows).length := by
  unfold transformed_coords
  rw [List.length_map]

theorem clamped_weights_length (rows : List CrimeRow) (weights : Option (List ℚ)) :
    (clamped_weights rows weights).length = (valid_rows rows).length := by
  unfold clamped_weights selected_weights
  cases weights <;> simp

theorem kept_points_nil_iff (rows : List CrimeRow)
    (transform : ℚ → ℚ → ℚ × ℚ) (weights : Option (List ℚ)) :
    kept_points rows transform weights = [] ↔
      ∀ w ∈ clamped_weights rows weights, w ≤ 0 := by
  unfold kept_points
  rw [List.filter_eq_nil]
  have hlen : (transformed_coords rows transform).length =
      (clamped_weights rows weights).length := by
    rw [transformed_coords_length, clamped_weights_length]
  have hz := forall_zip_snd (transformed_coords rows transform)
    (clamped_weights rows weights) hlen (fun w => w ≤ 0)
  constructor
  · intro h w hw
    refine hz.mp ?_ w hw
    intro xy hxy
    have h3 := h xy hxy
    simpa only [decide_eq_true_eq, not_lt] using h3
  · intro h xy hxy
    have h3 := hz.mpr h xy hxy
    simpa only [decide_eq_true_eq, not_lt] using h3

/-- C5: `build_risk_kde` fails (with the errors the spec groups under
`InsufficientDataError`) exactly when either no input point has both `lat`
and `lon` present, or when, after clamping weights to ≥ 0 and dropping
zero-weight points, no point remains; in all other cases it returns a fitted
estimator together with the coordinate transformer. -/
theorem build_risk_kde_error_iff (rows : List CrimeRow)
    (transform : ℚ → ℚ → ℚ × ℚ) (bandwidth : Option ℚ)
    (weights : Option (List ℚ)) :
    ((∃ err, build_risk_kde rows transform bandwidth weights = .error err) ↔
      ((∀ r ∈ rows, r.lat = none ∨ r.lon = none)
        ∨ ∀ w ∈ clamped_weights rows weights, w ≤ 0))
    ∧ (¬ ((∀ r ∈ rows, r.lat = none ∨ r.lon = none)
          ∨ ∀ w ∈ clamped_weights rows weights, w ≤ 0) →
        ∃ kde, build_risk_kde rows transform bandwidth weights =
          .ok (kde, transform)) := by
  by_cases h1 : (valid_rows rows).length = 0
  · have hc1 : ∀ r ∈ rows, r.lat = none ∨ r.lon = none :=
      (valid_rows_nil_iff rows).mp (List.length_eq_zero.mp h1)
    have hbuild : build_risk_kde rows transform bandwidth weights =
        .error .noValidCoordinates := by
      unfold build_risk_kde
      rw [if_pos h1]
    exact ⟨⟨fun _ => Or.inl hc1, fun _ => ⟨.noValidCoordinates, hbuild⟩⟩,
      fun hn => absurd (Or.inl hc1) hn⟩
  · by_cases h2 : (kept_points rows transform weights).length = 0
    · have hc2 : ∀ w ∈ clamped_weights rows weights, w ≤ 0 :=
        (kept_points_nil_iff rows transform weights).mp (List.length_eq_zero.mp h2)
      have hbuild : build_risk_kde rows transform bandwidth weights =
          .error .noPositiveWeights := by
        unfold build_risk_kde
        rw [if_neg h1, if_pos h2]
      exact ⟨⟨fun _ => Or.inr hc2, fun _ => ⟨.noPositiveWeights, hbuild⟩⟩,
        fun hn => absurd (Or.inr hc2) hn⟩
    · have hbuild : build_risk_kde rows transform bandwidth weights =
          .ok (⟨replicated_cloud
              ((kept_points rows transform weights).map (fun cw => cw.1))
              (normalized_replication_counts
                ((kept_points rows transform weights).map (fun cw => cw.2))),
            bandwidth⟩, transform) := by
        unfold build_risk_kde
        rw [if_neg h1, if_neg h2]
      refine ⟨⟨?_, ?_⟩, fun _ => ⟨_, hbuild⟩⟩
      · rintro ⟨err, herr⟩
        rw [hbuild] at herr
        cases herr
      · intro hor
        exfalso
        rcases hor with hc1 | hc2
        · exact h1 (by rw [(valid_rows_nil_iff rows).mpr hc1]; rfl)
        · exact h2 (by rw [(kept_points_nil_iff rows transform weights).mpr hc2]; rfl)

/-- C5 witness: with no input points at all, `build_risk_kde` does not return
a fitted estimator. -/
theorem build_risk_kde_error_iff_witness :
    (build_risk_kde [] (fun lon lat => (lon, lat)) none none).toOption = none := by
  obtain ⟨err, herr⟩ :=
    (build_risk_kde_error_iff [] (fun lon lat => (lon, lat)) none none).1.mpr
      (Or.inl (fun r hr => absurd hr (List.not_mem_nil r)))
  rw [herr]
  rfl

/-- C9: `parse_block_address` is total and best-effort on every input string:
in the intersection branch and the no-`BLOCK` branch `block_num` is null; in
the block branch an empty token list after removing `BLOCK` yields a null
`block_num` and an empty street name, and otherwise `block_num` is exactly
the Python `int(...)` parse of the first token, which is null whenever that
token is not an integer literal. -/
theorem parse_block_address_best_effort (s : String) :
    ((normalizedAddr s).contains '&' = true →
      (parse_block_address s).block_num = none)
    ∧ ((normalizedAddr s).contains '&' = false →
        containsSeq blockChars (normalizedAddr s) = false →
        (parse_block_address s).block_num = none)
    ∧ ((normalizedAddr s).contains '&' = false →
        containsSeq blockChars (normalizedAddr s) = true →
        ((blockParts s = [] →
            (parse_block_address s).block_num = none
              ∧ (parse_block_address s).street_name = "")
          ∧ ∀ p0 rest, blockParts s = p0 :: rest →
              (parse_block_address s).block_num = pyInt p0)) := by
  refine ⟨?_, ?_, ?_⟩
  · intro h1
    simp only [parse_block_address, h1, if_true]
  · intro h1 h2
    simp only [parse_block_address, h1, h2, Bool.false_eq_true, if_false,
      Bool.not_false, if_true]
  · intro h1 h2
    constructor
    · intro hbp
      constructor
      · simp only [parse_block_address, h1, h2, Bool.false_eq_true, if_false,
          Bool.not_true, hbp]
      · simp only [parse_block_address, h1, h2, Bool.false_eq_true, if_false,
          Bool.not_true, hbp]
    · intro p0 rest hbp
      simp only [parse_block_address, h1, h2, Bool.false_eq_true, if_false,
        Bool.not_true, hbp]

/-- C9 witness: the string `BLOCK` itself parses to the all-empty descriptor
without an exception. -/
theorem parse_block_address_best_effort_witness :
    (parse_block_address "BLOCK").block_num = none
      ∧ (parse_block_address "BLOCK").street_name = "" :=
  ((parse_block_address_best_effort "BLOCK").2.2 rfl rfl).1 rfl

theorem pyRangeGo_eq_map (s : Int) (hs : 0 < s) :
    ∀ (k fuel : Nat) (a b : Int), k ≤ fuel →
      b - a ≤ (k : Int) * s → (∀ j : Nat, j < k → (j : Int) * s < b - a) →
      pyRangeGo s fuel a b =
        (List.range k).map (fun (i : Nat) => a + s * (i : Int)) := by
  intro k
  induction k with
  | zero =>
    intro fuel a b hkf hba hj
    have hnb : ¬ a < b := by
      norm_num at hba
      omega
    cases fuel with
    | zero => rfl
    | succ f =>
      unfold pyRangeGo
      rw [if_neg hnb]
      rfl
  | succ k ih =>
    intro fuel a b hkf hba hj
    obtain ⟨f, rfl⟩ : ∃ f, fuel = f + 1 := ⟨fuel - 1, by omega⟩
    have hab : a < b := by
      have h0 := hj 0 (by omega)
      norm_num at h0
      omega
    have hstep : pyRangeGo s (f + 1) a b = a :: pyRangeGo s f (a + s) b := by
      simp only [pyRangeGo]
      rw [if_pos hab]
    rw [hstep]
    rw [ih f (a + s) b (by omega) ?hle ?hlt]
    case hle =>
      have : ((k : Int) + 1) * s = (k : Int) * s + s := by ring
      push_cast at hba
      linarith
    case hlt =>
      intro j hjk
      have h2 := hj (j + 1) (by omega)
      push_cast at h2
      have : ((j : Int) + 1) * s = (j : Int) * s + s := by ring
      linarith
    rw [List.range_succ_eq_map, List.map_cons]
    congr 1
    · rw [Nat.cast_zero, mul_zero, add_zero]
    · rw [List.map_map]
      apply List.map_congr_left
      intro i _
      simp only [Function.comp_apply]
      push_cast
      ring

theorem generate_block_samples_some (n : Int) (street dir suf : String) (s : Int) :
    generate_block_samples (some n) street dir suf s =
      if n = 0 then []
      else (pyRange n (n + 99 + 1) s).map
        (fun addr_num => block_sample_line addr_num street dir suf) := rfl

theorem pyRange_block (n s : Int) (hs : 1 ≤ s) :
    pyRange n (n + 99 + 1) s =
      (List.range (99 / s.toNat + 1)).map (fun (i : Nat) => n + s * (i : Int)) := by
  unfold pyRange
  rw [if_pos (by omega : (0 : Int) < s)]
  have hfuel : (n + 99 + 1 - n).toNat = 100 := by
    rw [show n + 99 + 1 - n = 100 by ring]
    rfl
  rw [hfuel]
  have hst1 : 1 ≤ s.toNat := by omega
  have hcast : (s.toNat : Int) = s := by omega
  apply pyRangeGo_eq_map s (by omega) (99 / s.toNat + 1) 100 n (n + 99 + 1)
  · have := Nat.div_le_self 99 s.toNat
    omega
  · have hmodZ : (s.toNat : Int) * ((99 / s.toNat : ℕ) : Int)
        + ((99 % s.toNat : ℕ) : Int) = 99 := by
      exact_mod_cast Nat.div_add_mod 99 s.toNat
    have hltZ : ((99 % s.toNat : ℕ) : Int) < (s.toNat : Int) := by
      exact_mod_cast Nat.mod_lt 99 (by omega)
    have key : (100 : Int) ≤ ((99 / s.toNat + 1 : ℕ) : Int) * (s.toNat : Int) := by
      rw [Nat.cast_add, Nat.cast_one]
      nlinarith [hmodZ, hltZ]
    rw [show n + 99 + 1 - n = 100 by ring]
    calc (100 : Int) ≤ ((99 / s.toNat + 1 : ℕ) : Int) * (s.toNat : Int) := key
      _ = ((99 / s.toNat + 1 : ℕ) : Int) * s := by rw [hcast]
  · intro j hj
    have hj2 : j ≤ 99 / s.toNat := by omega
    have hmul : j * s.toNat ≤ (99 / s.toNat) * s.toNat :=
      Nat.mul_le_mul_right s.toNat hj2
    have hdm : (99 / s.toNat) * s.toNat ≤ 99 := Nat.div_mul_le_self 99 s.toNat
    have hjs : ((j * s.toNat : ℕ) : Int) ≤ 99 := by
      exact_mod_cast le_trans hmul hdm
    push_cast at hjs
    rw [show n + 99 + 1 - n = 100 by ring]
    rw [← hcast]
    linarith

/-- C4 (amended): for every address whose parse yields a positive integer
block number `n` and every spacing `s ≥ 1`, `parse_block_address` followed by
`generate_block_samples` produces exactly `⌊99 / s⌋ + 1` (that is,
`⌈100 / s⌉`) sample lines; the i-th sample's leading number is `n + s * i`,
so the leading numbers start at `n`, increase by `s`, and stay within the
inclusive upper bound `n + 99`. -/
theorem generate_block_samples_spec (addr : String) (n s : Int)
    (hp : (parse_block_address addr).block_num = some n)
    (hn : 0 < n) (hs : 1 ≤ s) :
    (generate_block_samples (parse_block_address addr).block_num
        (parse_block_address addr).street_name
        (parse_block_address addr).direction
        (parse_block_address addr).suffix s).length = 99 / s.toNat + 1
    ∧ generate_block_samples (parse_block_address addr).block_num
        (parse_block_address addr).street_name
        (parse_block_address addr).direction
        (parse_block_address addr).suffix s =
      (List.range (99 / s.toNat + 1)).map
        (fun (i : Nat) => block_sample_line (n + s * (i : Int))
          (parse_block_address addr).street_name
          (parse_block_address addr).direction
          (parse_block_address addr).suffix)
    ∧ ∀ i ∈ List.range (99 / s.toNat + 1),
        n ≤ n + s * (i : Int) ∧ n + s * (i : Int) ≤ n + 99 := by
  rw [hp]
  rw [generate_block_samples_some]
  rw [if_neg (by omega : ¬ n = 0)]
  rw [pyRange_block n s hs]
  rw [List.map_map]
  refine ⟨by rw [List.length_map, List.length_range], rfl, ?_⟩
  intro i hi
  rw [List.mem_range] at hi
  have hi2 : i ≤ 99 / s.toNat := by omega
  have hcast : (s.toNat : Int) = s := by omega
  have hmul : i * s.toNat ≤ (99 / s.toNat) * s.toNat :=
    Nat.mul_le_mul_right s.toNat hi2
  have hdm : (99 / s.toNat) * s.toNat ≤ 99 := Nat.div_mul_le_self 99 s.toNat
  have his : ((i * s.toNat : ℕ) : Int) ≤ 99 := by
    exact_mod_cast le_trans hmul hdm
  push_cast at his
  rw [← hcast]
  constructor
  · have h0 : (0 : Int) ≤ (i : Int) * (s.toNat : Int) := by positivity
    linarith
  · linarith

/-- C4 witness: for the address `800 BLOCK WASHINGTON ST` and the default
spacing 20, the pipeline emits `⌊99 / 20⌋ + 1 = 5` samples. -/
theorem generate_block_samples_spec_witness :
    (generate_block_samples (parse_block_address "800 BLOCK WASHINGTON ST").block_num
      (parse_block_address "800 BLOCK WASHINGTON ST").street_name
      (parse_block_address "800 BLOCK WASHINGTON ST").direction
      (parse_block_address "800 BLOCK WASHINGTON ST").suffix 20).length
      = 99 / (20 : Int).toNat + 1 :=
  (generate_block_samples_spec "800 BLOCK WASHINGTON ST" 800 20 rfl
    (by omega) (by omega)).1

/-- C4 counterexample: for `800 BLOCK WASHINGTON ST` with spacing 20 the
pipeline emits 5 samples (`800, 820, 840, 860, 880`), not the
`⌈100 / 20⌉ + 1 = 6` the claim states. -/
theorem generate_block_samples_count_counterexample :
    (parse_block_address "800 BLOCK WASHINGTON ST").block_num = some 800
    ∧ (generate_block_samples
        (parse_block_address "800 BLOCK WASHINGTON ST").block_num
        (parse_block_address "800 BLOCK WASHINGTON ST").street_name
        (parse_block_address "800 BLOCK WASHINGTON ST").direction
        (parse_block_address "800 BLOCK WASHINGTON ST").suffix 20).length = 5
    ∧ (5 : ℕ) ≠ 100 / 20 + 1 := by
  refine ⟨rfl, rfl, by decide⟩

end CrimeRoutes
